import Mathlib

/-!
Shallow embedding of the installer-link discovery, download-completion
detection, configuration loading and VPN-connection glue of the
`sample_vpn` repository (src/vpn_automator.py, src/connect_vpn.py,
src/vpn_automator_wireguard.py).

Strings are modelled as `List Char`; Python `str.lower()` on the ASCII
inputs of interest is `Char.toLower` mapped over the list, Python
substring (`in`), `endswith` and `startswith` are list infix / suffix /
prefix tests.
-/

/-- Python `str.lower()` restricted to ASCII, as used on hrefs and keywords. -/
def toLowerL (s : List Char) : List Char := s.map Char.toLower

/-- Whitespace characters stripped by Python `str.strip()` (ASCII range). -/
def pyIsSpace (c : Char) : Bool :=
  c = ' ' || c = '\t' || c = '\n' || c = '\r' || c = '\x0b' || c = '\x0c'

/-- Python `str.strip()`: drop leading and trailing whitespace. -/
def pyStrip (s : List Char) : List Char :=
  ((s.dropWhile pyIsSpace).reverse.dropWhile pyIsSpace).reverse

/-- Python `needle in hay` substring test. -/
def hasSub (needle hay : List Char) : Bool := decide (needle <:+: hay)

/-- Python `s.endswith(suf)`. -/
def endsWithB (suf s : List Char) : Bool := decide (suf <:+ s)

/-- Python `s.startswith(pre)`. -/
def startsWithB (pre s : List Char) : Bool := decide (pre <+: s)

/-- Membership of a string in a list of strings (Python `x in set`). -/
def memB (x : List Char) (l : List (List Char)) : Bool := decide (x ∈ l)

/-- The target platform passed to `find_and_click_download` as `target_os`
(the caller always passes the string windows or linux, line 317). -/
inductive TargetOS where
  | windows
  | linux
deriving DecidableEq

/-- An anchor element as `find_and_click_download` reads it: the values of
the `href`, `text` and `onclick` attributes (absent attributes read as
the empty string, lines 197-202). -/
structure Anchor where
  href : List Char
  text : List Char
  onclick : List Char
deriving DecidableEq

/-- The `suffixes` table of `find_and_click_download` (lines 184-187). -/
def suffixes : TargetOS → List (List Char)
  | TargetOS.windows => [".exe".toList, ".msi".toList]
  | TargetOS.linux => [".deb".toList, ".rpm".toList, ".tar.gz".toList, ".tar.xz".toList]

/-- The `keywords` table of `find_and_click_download` (lines 188-191). -/
def keywords : TargetOS → List (List Char)
  | TargetOS.windows => ["windows".toList, "msi".toList, "exe".toList, "Windows".toList]
  | TargetOS.linux => ["linux".toList, ".deb".toList, ".rpm".toList, "Linux".toList]

/-- One attempt of the regex `(https?://[^\x27]+)` at the start of `s`:
the literal http, an optional s, then `://`, then one or more characters
other than a single quote, taken greedily. -/
def matchHttpAt (s : List Char) : Option (List Char) :=
  if startsWithB ("https://".toList) s then
    let body := (s.drop 8).takeWhile (fun c => c ≠ '\'')
    if body = [] then none else some ("https://".toList ++ body)
  else if startsWithB ("http://".toList) s then
    let body := (s.drop 7).takeWhile (fun c => c ≠ '\'')
    if body = [] then none else some ("http://".toList ++ body)
  else none

/-- `re.search` of that pattern: the leftmost position where it matches
(line 206). -/
def searchHttp : List Char → Option (List Char)
  | [] => none
  | c :: rest =>
    match matchHttpAt (c :: rest) with
    | some m => some m
    | none => searchHttp rest

/-- Lines 197-208: the href used for an anchor — its `href` attribute, or,
when that is empty and the `onclick` attribute contains http, the first
`https?://[^\x27]+` match inside `onclick` (otherwise the empty string). -/
def resolveHref (a : Anchor) : List Char :=
  if a.href ≠ [] then a.href
  else if hasSub ("http".toList) a.onclick then (searchHttp a.onclick).getD []
  else []

/-- Lines 209-217: the candidate entries one anchor contributes, in loop
order — one `(href, text)` entry per matching suffix, then one per
matching keyword (a keyword matches case-insensitively against the href,
or case-sensitively against the stripped visible text). -/
def anchorEntries (os : TargetOS) (a : Anchor) : List (List Char × List Char) :=
  let href := resolveHref a
  let text := pyStrip a.text
  if href = [] then []
  else
    ((suffixes os).filter (fun suf => endsWithB suf (toLowerL href))).map
        (fun _ => (href, text)) ++
      ((keywords os).filter
          (fun kw => hasSub (toLowerL kw) (toLowerL href) || hasSub kw text)).map
        (fun _ => (href, text))

/-- The `candidates` list built by the anchor loop (lines 194-219). -/
def candidates (anchors : List Anchor) (os : TargetOS) : List (List Char × List Char) :=
  (anchors.map (anchorEntries os)).flatten

/-- `href.split("#")[0]` — everything before the first `#` (line 224). -/
def stripFragment (s : List Char) : List Char := s.takeWhile (fun c => c ≠ '#')

/-- The insertion-ordered key list of the `unique` dict (lines 222-226):
`setdefault` adds a key the first time it is seen and keeps order. -/
def dedupAux (acc : List (List Char)) : List (List Char) → List (List Char)
  | [] => acc
  | h :: rest =>
    let key := stripFragment h
    if memB key acc then dedupAux acc rest else dedupAux (acc ++ [key]) rest

/-- The deduplicated href keys of the discovered candidates, in first-seen
order (`hrefs = list(unique.keys())`, line 226). -/
def hrefsOf (anchors : List Anchor) (os : TargetOS) : List (List Char) :=
  dedupAux [] ((candidates anchors os).map Prod.fst)

/-- Whether a deduplicated key ends with an accepted suffix for the
platform (`key.lower().endswith(suf)`, line 235). -/
def suffixMatchB (os : TargetOS) (key : List Char) : Bool :=
  (suffixes os).any (fun suf => endsWithB suf (toLowerL key))

/-- The suffix-preference pass of lines 233-248: the first key in order
whose lower-cased form ends with an accepted suffix. -/
def pickBySuffix (os : TargetOS) : List (List Char) → Option (List Char)
  | [] => none
  | k :: rest => if suffixMatchB os k then some k else pickBySuffix os rest

/-- The pure selection performed by `find_and_click_download`
(lines 160-261): the returned download href, or `none` when no candidate
was found. Clicking and navigation are side effects on the driver and do
not affect the returned href. -/
def find_and_click_download (anchors : List Anchor) (os : TargetOS) : Option (List Char) :=
  match hrefsOf anchors os with
  | [] => none
  | k :: rest =>
    match pickBySuffix os (k :: rest) with
    | some c => some c
    | none => some k

/-!
DownloadWatcher: `wait_for_download_completion` (src/vpn_automator.py,
lines 263-311). A directory entry is modelled with its name and the two
sizes sampled 0.5 s apart by the stability check; sizes are assumed
stable after the second sample, so the later reads (the sort key of
line 296 and the size test of line 304) read the second sample.
-/

/-- A file in the download directory with its two sampled sizes. -/
structure DirEntry where
  name : List Char
  size1 : Nat
  size2 : Nat
deriving DecidableEq

/-- The default `partial_exts` argument (line 263). -/
def tmpExts : List (List Char) :=
  [".crdownload".toList, ".part".toList, ".partial".toList, ".download".toList]

/-- `str(p)` for an entry `p` of the watched directory `dir`. -/
def pathStr (dir : List Char) (e : DirEntry) : List Char := dir ++ '/' :: e.name

/-- Whether `str(p)` ends with one of the temporary suffixes (line 279). -/
def isTmpPath (dir : List Char) (exts : List (List Char)) (e : DirEntry) : Bool :=
  exts.any (fun ext => endsWithB ext (pathStr dir e))

/-- Whether a bare file name ends with one of the temporary suffixes
(line 302). -/
def isTmpName (exts : List (List Char)) (n : List Char) : Bool :=
  exts.any (fun ext => endsWithB ext n)

/-- Lines 275-292 fused: from the current listing, the new entries (name
not in the snapshot) that are not temporary and whose two size samples
agree and are positive, in listing order. -/
def computeCompleted (dir : List Char) (exts : List (List Char))
    (existing : List (List Char)) : List DirEntry → List DirEntry
  | [] => []
  | p :: rest =>
    if memB p.name existing then computeCompleted dir exts existing rest
    else if isTmpPath dir exts p then computeCompleted dir exts existing rest
    else if p.size1 = p.size2 ∧ 0 < p.size1 then
      p :: computeCompleted dir exts existing rest
    else computeCompleted dir exts existing rest

/-- Stable insertion, descending by size, of one entry into an already
sorted list: the entry passes entries that are strictly larger. -/
def insertBySize (e : DirEntry) : List DirEntry → List DirEntry
  | [] => [e]
  | x :: xs => if e.size2 < x.size2 then x :: insertBySize e xs else e :: x :: xs

/-- `completed.sort(key=lambda p: p.stat().st_size, reverse=True)`
(line 296): a stable descending sort by size. -/
def sortBySizeDesc : List DirEntry → List DirEntry
  | [] => []
  | x :: xs => insertBySize x (sortBySizeDesc xs)

/-- The second scan of lines 298-307: the first current entry whose name
was in the snapshot, is not temporary-suffixed now, and has positive
size. -/
def pickPreexisting (exts : List (List Char)) (existing : List (List Char))
    (current : List DirEntry) : Option DirEntry :=
  current.find? (fun p =>
    memB p.name existing && !isTmpName exts p.name && decide (0 < p.size2))

/-- One iteration of the polling loop (lines 272-309): a completed new
file (the largest when several) if any, else the first qualifying
pre-existing entry, else nothing (the loop then sleeps and retries). -/
def pollIteration (dir : List Char) (exts : List (List Char))
    (existing : List (List Char)) (current : List DirEntry) : Option DirEntry :=
  match sortBySizeDesc (computeCompleted dir exts existing current) with
  | c :: _ => some c
  | [] => pickPreexisting exts existing current

/-- The polling loop of `wait_for_download_completion`: `initial` is the
directory listing at snapshot time (line 270), `states` the listings seen
by the successive iterations that fit in the timeout window; `none` is
the timeout result (line 311). -/
def wait_for_download_completion (dir : List Char) (exts : List (List Char))
    (initial : List DirEntry) : List (List DirEntry) → Option DirEntry
  | [] => none
  | s :: rest =>
    match pollIteration dir exts (initial.map DirEntry.name) s with
    | some e => some e
    | none => wait_for_download_completion dir exts initial rest

/-!
ConfigLoader: `load_configuration` and `sanity_check_config`
(src/vpn_automator.py, lines 73-100), the required-variable check of
`connect_vpn` (src/connect_vpn.py, lines 16-23), and the WireGuard
variant (src/vpn_automator_wireguard.py, lines 42-52). An environment is
a partial map from variable name to value.
-/

/-- An environment: `os.getenv` returns the value or nothing. -/
abbrev Env : Type := List Char → Option (List Char)

def keyDOWNLOAD_PAGE_URL : List Char := "DOWNLOAD_PAGE_URL".toList
def keyVPN_CONFIG_FILE : List Char := "VPN_CONFIG_FILE".toList
def keyVPN_USERNAME : List Char := "VPN_USERNAME".toList
def keyVPN_PASSWORD : List Char := "VPN_PASSWORD".toList
def keyBROWSER : List Char := "BROWSER".toList
def keyDOWNLOAD_TIMEOUT : List Char := "DOWNLOAD_TIMEOUT".toList
def keySTARTUP_URL : List Char := "STARTUP_URL".toList
def keyWG_CONFIG_FILE : List Char := "WG_CONFIG_FILE".toList

/-- An ASCII decimal digit. -/
def pyDigit (c : Char) : Bool := '0' ≤ c && c ≤ '9'

/-- After a first digit: digits, with single underscores allowed only
between digits (Python 3 integer literals as accepted by `int`). -/
def digitsTail : List Char → Bool
  | [] => true
  | '_' :: rest =>
    match rest with
    | d :: r2 => pyDigit d && digitsTail r2
    | [] => false
  | c :: rest => pyDigit c && digitsTail rest

/-- A nonempty digit group as `int` accepts it after the optional sign. -/
def digitsOK : List Char → Bool
  | [] => false
  | c :: rest => pyDigit c && digitsTail rest

/-- The value of a digit group, underscores skipped. -/
def digitsVal (s : List Char) : Nat :=
  s.foldl (fun n c => if c = '_' then n else n * 10 + (c.toNat - 48)) 0

/-- Python `int(s)` on a string: strip whitespace, optional sign, then a
digit group; `none` models the `ValueError`. -/
def pyInt (s : List Char) : Option Int :=
  match pyStrip s with
  | '+' :: rest => if digitsOK rest then some (digitsVal rest) else none
  | '-' :: rest => if digitsOK rest then some (-(digitsVal rest : Int)) else none
  | t => if digitsOK t then some (digitsVal t) else none

/-- `int(os.getenv("DOWNLOAD_TIMEOUT") or DEFAULT_DOWNLOAD_TIMEOUT)`
(line 85 with line 28): an unset or empty variable falls back to the
default 120 before `int` runs; any other value goes through `int`. -/
def pyTimeout (v : Option (List Char)) : Option Int :=
  match v with
  | none => some 120
  | some s => if s = [] then some 120 else pyInt s

/-- The configuration record built by `load_configuration` (lines 79-86). -/
structure Config where
  downloadPageUrl : List Char
  vpnConfigFile : List Char
  vpnUsername : List Char
  vpnPassword : List Char
  browser : Option (List Char)
  downloadTimeout : Int
deriving DecidableEq

/-- `load_configuration` (lines 73-87): the four text variables are read
with default empty and stripped, `BROWSER` is stripped and lower-cased
with empty becoming `None`, and the timeout conversion may raise — the
`error` case is the uncaught `ValueError` of `int`. -/
def load_configuration (env : Env) : Except Unit Config :=
  match pyTimeout (env keyDOWNLOAD_TIMEOUT) with
  | none => Except.error ()
  | some t =>
    let b := toLowerL (pyStrip ((env keyBROWSER).getD []))
    Except.ok
      { downloadPageUrl := pyStrip ((env keyDOWNLOAD_PAGE_URL).getD [])
        vpnConfigFile := pyStrip ((env keyVPN_CONFIG_FILE).getD [])
        vpnUsername := pyStrip ((env keyVPN_USERNAME).getD [])
        vpnPassword := pyStrip ((env keyVPN_PASSWORD).getD [])
        browser := if b = [] then none else some b
        downloadTimeout := t }

/-- The required keys checked by `sanity_check_config`, in check order. -/
def requiredKeys : List (List Char) :=
  [keyDOWNLOAD_PAGE_URL, keyVPN_CONFIG_FILE, keyVPN_USERNAME, keyVPN_PASSWORD]

/-- The configuration field named by a required key. -/
def cfgGet (cfg : Config) (k : List Char) : List Char :=
  if k = keyDOWNLOAD_PAGE_URL then cfg.downloadPageUrl
  else if k = keyVPN_CONFIG_FILE then cfg.vpnConfigFile
  else if k = keyVPN_USERNAME then cfg.vpnUsername
  else if k = keyVPN_PASSWORD then cfg.vpnPassword
  else []

/-- The `missing` list collected by `sanity_check_config` (lines 90-98),
in check order. -/
def missingOf (cfg : Config) : List (List Char) :=
  (if cfg.downloadPageUrl = [] then [keyDOWNLOAD_PAGE_URL] else []) ++
    (if cfg.vpnConfigFile = [] then [keyVPN_CONFIG_FILE] else []) ++
    (if cfg.vpnUsername = [] then [keyVPN_USERNAME] else []) ++
    (if cfg.vpnPassword = [] then [keyVPN_PASSWORD] else [])

/-- `sanity_check_config` (lines 89-100): `some missing` is the single
fatal error whose message lists exactly these names (line 100), `none`
means the check passes. -/
def sanity_check_config (cfg : Config) : Option (List (List Char)) :=
  if missingOf cfg = [] then none else some (missingOf cfg)

/-- The required keys of `connect_vpn` in src/connect_vpn.py (line 21). -/
def cvRequiredKeys : List (List Char) :=
  [keyVPN_CONFIG_FILE, keyVPN_USERNAME, keyVPN_PASSWORD, keySTARTUP_URL]

/-- Whether src/connect_vpn.py's check fires: any of its four variables
unset or empty (`not x` on the raw `os.getenv` value, line 21). -/
def cvMissingB (env : Env) : Bool :=
  cvRequiredKeys.any (fun k => ((env k).getD []) = [])

/-- src/connect_vpn.py lines 21-23: on a missing variable one error
message is printed that names all four required variables; `some` of
that name list models the message, `none` means the check passes. -/
def connectVpnCheck (env : Env) : Option (List (List Char)) :=
  if cvMissingB env then some cvRequiredKeys else none

/-- How the configuration stage of `main` in src/vpn_automator.py ends
(lines 464-465): an uncaught `ValueError` out of `load_configuration`,
or the categorized fatal of `sanity_check_config`. -/
inductive Abort where
  | valueError
  | fatalMissing (names : List (List Char))
deriving DecidableEq

/-- `load_configuration()` then `sanity_check_config(cfg)` as `main` runs
them (lines 464-465). -/
def configStage (env : Env) : Except Abort Config :=
  match load_configuration env with
  | Except.error _ => Except.error Abort.valueError
  | Except.ok cfg =>
    match sanity_check_config cfg with
    | some l => Except.error (Abort.fatalMissing l)
    | none => Except.ok cfg

/-!
Process exit codes (claim C5): `fatal` calls `sys.exit(1)`
(src/vpn_automator.py lines 32-34), the entry wrapper catches
`KeyboardInterrupt` and exits 2 (lines 501-507), normal completion of
`main` exits 0, and an uncaught exception makes the interpreter exit 1.
-/

/-- How a run of `main` ends, before the entry wrapper maps it to a
process exit code. -/
inductive RunOutcome where
  | normal
  | sysExit (code : Nat)
  | interrupt
  | uncaughtExc
deriving DecidableEq

/-- `fatal(msg)` (lines 32-34): `sys.exit` with the default code 1. -/
def fatalOutcome : RunOutcome := RunOutcome.sysExit 1

/-- `main()` of src/vpn_automator.py through its configuration stage
(lines 459-465); `rest` is how the remainder of the run (download,
handoff, connection) would end once the configuration stage passes. -/
def mainOutcome (env : Env) (rest : RunOutcome) : RunOutcome :=
  match configStage env with
  | Except.error Abort.valueError => RunOutcome.uncaughtExc
  | Except.error (Abort.fatalMissing _) => fatalOutcome
  | Except.ok _ => rest

/-- The `__main__` wrapper of src/vpn_automator.py (lines 501-507): a
`KeyboardInterrupt` is caught and mapped to exit code 2; otherwise the
interpreter exits 0 on return, with the `sys.exit` code, or 1 on an
uncaught exception. -/
def entryWrap (o : RunOutcome) : Nat :=
  match o with
  | RunOutcome.interrupt => 2
  | RunOutcome.normal => 0
  | RunOutcome.sysExit c => c
  | RunOutcome.uncaughtExc => 1

/-- The process exit code of running src/vpn_automator.py. -/
def vpn_automator_exit (env : Env) (rest : RunOutcome) : Nat :=
  entryWrap (mainOutcome env rest)

/-- The process exit code of running src/connect_vpn.py: `connect_vpn()`
prints an error and returns when a required variable is missing
(lines 21-23), so the interpreter exits 0 on that path; `rest` is the
exit code the rest of the run would produce. -/
def connect_vpn_exit (env : Env) (rest : Nat) : Nat :=
  if cvMissingB env then 0 else rest

/-- `sanity_check_config` of src/vpn_automator_wireguard.py
(lines 50-52): fatal when `WG_CONFIG_FILE` is unset or empty. -/
def wgMissingB (env : Env) : Bool :=
  pyStrip ((env keyWG_CONFIG_FILE).getD []) = []

/-- The process exit code of running src/vpn_automator_wireguard.py
(`main` at lines 119-129, wrapper at lines 131-136, same shape as
src/vpn_automator.py's). -/
def wireguard_exit (env : Env) (rest : RunOutcome) : Nat :=
  entryWrap (if wgMissingB env then fatalOutcome else rest)

/-!
Auth-file lifecycle (claim C6): `create_auth_file` and `connect_vpn` of
src/vpn_automator.py (lines 393-455) and `connect_vpn` of
src/connect_vpn.py (lines 25-64). The filesystem is a map from path to
permission mode bits; file content is not modelled. `open(..., "w")`
creates a missing file with the unrestricted default mode (0o666 before
the umask) and keeps the mode of an existing file.
-/

/-- A filesystem: the files that exist, each with its mode bits. -/
abbrev FSModel : Type := List (List Char × Nat)

/-- The unrestricted mode a plain `open(..., "w")` creates a file with
(0o666 before the umask — not owner-only). -/
def defaultMode : Nat := 438

/-- Owner-only mode, the `0o600` of `authf.chmod(0o600)` (line 402). -/
def ownerOnlyMode : Nat := 384

/-- Whether a path exists in the filesystem. -/
def existsF (fs : FSModel) (p : List Char) : Bool :=
  fs.any (fun e => e.1 = p)

/-- The mode of a path, when it exists. -/
def modeOf (fs : FSModel) (p : List Char) : Option Nat :=
  (fs.find? (fun e => e.1 = p)).map Prod.snd

/-- `open(p, "w")`: create with the default mode, keep an existing file. -/
def fsWrite (fs : FSModel) (p : List Char) : FSModel :=
  if existsF fs p then fs else (p, defaultMode) :: fs

/-- `p.chmod(m)`. -/
def fsChmod (fs : FSModel) (p : List Char) (m : Nat) : FSModel :=
  fs.map (fun e => if e.1 = p then (e.1, m) else e)

/-- `os.remove(p)`. -/
def fsRemove (fs : FSModel) (p : List Char) : FSModel :=
  fs.filter (fun e => ¬ e.1 = p)

/-- The auth file path `openvpn_auth.txt` in the fresh temporary
directory of `create_auth_file` (lines 395-397). -/
def authPath : List Char := "/tmp/vpn_auth_x/openvpn_auth.txt".toList

/-- The `temp_creds.txt` path of src/connect_vpn.py (line 26). -/
def credsPath : List Char := "temp_creds.txt".toList

/-- `create_auth_file` (lines 393-405): write the two-line file, then
restrict it to owner-only when `os.name == "posix"`. -/
def create_auth_file (posix : Bool) (fs : FSModel) : FSModel :=
  let fs1 := fsWrite fs authPath
  if posix then fsChmod fs1 authPath ownerOnlyMode else fs1

/-- The filesystem as a connection routine leaves it at the moment the
VPN subprocess is launched and at the moment the routine returns. -/
structure ConnectTrace where
  atLaunch : FSModel
  atReturn : FSModel
deriving DecidableEq

/-- `connect_vpn` of src/vpn_automator.py (lines 407-455): the auth file
is created before the `Popen` launch; streaming the child's output and
the `finally` block that terminates it perform no filesystem operation,
so the routine returns with the filesystem unchanged since launch. -/
def vpn_automator_connect_fs (posix : Bool) (fs : FSModel) : ConnectTrace :=
  let fs1 := create_auth_file posix fs
  { atLaunch := fs1, atReturn := fs1 }

/-- `connect_vpn` of src/connect_vpn.py (lines 25-64): `temp_creds.txt`
is written before the launch, and the `finally` block removes it when it
still exists. -/
def connect_vpn_py_fs (fs : FSModel) : ConnectTrace :=
  let fs1 := fsWrite fs credsPath
  { atLaunch := fs1
    atReturn := if existsF fs1 credsPath then fsRemove fs1 credsPath else fs1 }

/-- Modelled from the spec (refinement comparison for claim C7): "An
anchor becomes a candidate if its href (lower-cased) ends with an
accepted suffix, OR if any keyword token appears in the href or the
visible text", with keyword tokens matched case-insensitively against
both the href and the visible text. -/
def specCandidateB (os : TargetOS) (a : Anchor) : Bool :=
  resolveHref a ≠ [] &&
    (suffixMatchB os (resolveHref a) ||
      (keywords os).any (fun kw =>
        hasSub (toLowerL kw) (toLowerL (resolveHref a)) ||
          hasSub (toLowerL kw) (toLowerL (pyStrip a.text))))

/-!
Helper lemmas about the embedded operations.
-/

/-- Membership is preserved by stable insertion. -/
theorem mem_insertBySize {a e : DirEntry} {l : List DirEntry} :
    a ∈ insertBySize e l ↔ a = e ∨ a ∈ l := by
  induction l with
  | nil => simp [insertBySize]
  | cons x xs ih =>
    by_cases h : e.size2 < x.size2
    · simp only [insertBySize, if_pos h, List.mem_cons, ih]
      tauto
    · simp only [insertBySize, if_neg h, List.mem_cons]

/-- The stable sort permutes no element in or out. -/
theorem mem_sortBySizeDesc {a : DirEntry} {l : List DirEntry} :
    a ∈ sortBySizeDesc l ↔ a ∈ l := by
  induction l with
  | nil => simp [sortBySizeDesc]
  | cons x xs ih => simp [sortBySizeDesc, mem_insertBySize, ih]

/-- Insertion never yields the empty list. -/
theorem insertBySize_ne_nil (e : DirEntry) (l : List DirEntry) :
    insertBySize e l ≠ [] := by
  cases l with
  | nil => simp [insertBySize]
  | cons x xs =>
    by_cases h : e.size2 < x.size2 <;> simp [insertBySize, h]

/-- The head of the descending sort has the largest size. -/
theorem sortBySizeDesc_head_max {l : List DirEntry} {e : DirEntry} {t : List DirEntry}
    (h : sortBySizeDesc l = e :: t) : ∀ q ∈ l, q.size2 ≤ e.size2 := by
  induction l generalizing e t with
  | nil => simp [sortBySizeDesc] at h
  | cons x xs ih =>
    intro q hq
    rw [sortBySizeDesc] at h
    cases hs : sortBySizeDesc xs with
    | nil =>
      rw [hs] at h
      simp only [insertBySize, List.cons.injEq] at h
      rcases List.mem_cons.mp hq with rfl | hq2
      · exact le_of_eq (congrArg DirEntry.size2 h.1)
      · have hmem : q ∈ sortBySizeDesc xs := mem_sortBySizeDesc.mpr hq2
        rw [hs] at hmem
        exact absurd hmem (List.not_mem_nil q)
    | cons y ys =>
      rw [hs] at h
      by_cases hlt : x.size2 < y.size2
      · rw [insertBySize, if_pos hlt] at h
        have hy : y = e := (List.cons.injEq ..).mp h |>.1
        rcases List.mem_cons.mp hq with rfl | hq2
        · exact hy ▸ le_of_lt hlt
        · exact hy ▸ ih hs q hq2
      · rw [insertBySize, if_neg hlt] at h
        have hx : x = e := (List.cons.injEq ..).mp h |>.1
        rcases List.mem_cons.mp hq with rfl | hq2
        · exact le_of_eq (congrArg DirEntry.size2 hx)
        · have h1 : q.size2 ≤ y.size2 := ih hs q hq2
          have h2 : y.size2 ≤ x.size2 := Nat.le_of_not_lt hlt
          exact hx ▸ le_trans h1 h2

/-- When the suffix pass finds nothing, no key matches a suffix. -/
theorem pickBySuffix_eq_none {os : TargetOS} {l : List (List Char)}
    (h : pickBySuffix os l = none) : ∀ x ∈ l, suffixMatchB os x = false := by
  induction l with
  | nil => simp
  | cons k rest ih =>
    cases hk : suffixMatchB os k with
    | true => rw [pickBySuffix, if_pos hk] at h; exact absurd h (by simp)
    | false =>
      rw [pickBySuffix, if_neg (by simp [hk])] at h
      intro x hx
      rcases List.mem_cons.mp hx with rfl | hx2
      · exact hk
      · exact ih h x hx2

/-- What the suffix pass returns: the first suffix-matching key. -/
theorem pickBySuffix_eq_some {os : TargetOS} {l : List (List Char)} {c : List Char}
    (h : pickBySuffix os l = some c) :
    ∃ l1 l2, l = l1 ++ c :: l2 ∧ suffixMatchB os c = true ∧
      ∀ x ∈ l1, suffixMatchB os x = false := by
  induction l with
  | nil => simp [pickBySuffix] at h
  | cons k rest ih =>
    cases hk : suffixMatchB os k with
    | true =>
      rw [pickBySuffix, if_pos hk] at h
      obtain rfl : k = c := Option.some.injEq .. ▸ h
      exact ⟨[], rest, rfl, hk, by simp⟩
    | false =>
      rw [pickBySuffix, if_neg (by simp [hk])] at h
      obtain ⟨l1, l2, rfl, hc, hall⟩ := ih h
      refine ⟨k :: l1, l2, rfl, hc, ?_⟩
      intro x hx
      rcases List.mem_cons.mp hx with rfl | hx2
      · exact hk
      · exact hall x hx2

/-- The suffix pass succeeds when some key matches. -/
theorem pickBySuffix_isSome {os : TargetOS} {l : List (List Char)} {k : List Char}
    (hk : k ∈ l) (hm : suffixMatchB os k = true) :
    (pickBySuffix os l).isSome = true := by
  induction l with
  | nil => exact absurd hk (List.not_mem_nil k)
  | cons x rest ih =>
    cases hx : suffixMatchB os x with
    | true => simp [pickBySuffix, hx]
    | false =>
      rcases List.mem_cons.mp hk with rfl | hk2
      · rw [hx] at hm; exact absurd hm (by simp)
      · rw [pickBySuffix, if_neg (by simp [hx])]
        exact ih hk2

/-- Deduplication processes a concatenation in two stages. -/
theorem dedupAux_append (acc xs ys : List (List Char)) :
    dedupAux acc (xs ++ ys) = dedupAux (dedupAux acc xs) ys := by
  induction xs generalizing acc with
  | nil => rfl
  | cons h rest ih =>
    rw [List.cons_append, dedupAux, dedupAux]
    by_cases hm : memB (stripFragment h) acc = true
    · rw [if_pos hm, if_pos hm, ih]
    · rw [if_neg hm, if_neg hm, ih]

/-- A key already accumulated stays in the deduplicated output. -/
theorem mem_dedupAux_of_mem_acc {k : List Char} {acc l : List (List Char)}
    (h : k ∈ acc) : k ∈ dedupAux acc l := by
  induction l generalizing acc with
  | nil => exact h
  | cons x rest ih =>
    rw [dedupAux]
    by_cases hm : memB (stripFragment x) acc = true
    · rw [if_pos hm]; exact ih h
    · rw [if_neg hm]; exact ih (List.mem_append_left _ h)

/-- Every processed element's key appears in the deduplicated output. -/
theorem stripFragment_mem_dedupAux {h : List Char} {acc l : List (List Char)}
    (hm : h ∈ l) : stripFragment h ∈ dedupAux acc l := by
  induction l generalizing acc with
  | nil => exact absurd hm (List.not_mem_nil h)
  | cons x rest ih =>
    rcases List.mem_cons.mp hm with rfl | hm2
    · rw [dedupAux]
      by_cases hmem : memB (stripFragment h) acc = true
      · rw [if_pos hmem]
        exact mem_dedupAux_of_mem_acc (of_decide_eq_true hmem)
      · rw [if_neg hmem]
        exact mem_dedupAux_of_mem_acc
          (List.mem_append_right _ (List.mem_singleton.mpr rfl))
    · rw [dedupAux]
      by_cases hmem : memB (stripFragment x) acc = true
      · rw [if_pos hmem]; exact ih hm2
      · rw [if_neg hmem]; exact ih hm2

/-- A string with no hash is its own fragment-stripped key. -/
theorem stripFragment_of_no_hash {h : List Char} (hh : '#' ∉ h) :
    stripFragment h = h := by
  induction h with
  | nil => rfl
  | cons c t ih =>
    have hc : c ≠ '#' := fun e => hh (e ▸ List.mem_cons_self c t)
    have ht : '#' ∉ t := fun e => hh (List.mem_cons_of_mem c e)
    simp only [stripFragment, List.takeWhile_cons] at *
    rw [if_pos (by simp [hc])]
    rw [ih ht]

/-- Appending a fragment does not change the fragment-stripped key. -/
theorem stripFragment_append_hash (h frag : List Char) (hh : '#' ∉ h) :
    stripFragment (h ++ '#' :: frag) = h := by
  induction h with
  | nil => simp [stripFragment]
  | cons c t ih =>
    have hc : c ≠ '#' := fun e => hh (e ▸ List.mem_cons_self c t)
    have ht : '#' ∉ t := fun e => hh (List.mem_cons_of_mem c e)
    simp only [stripFragment, List.cons_append, List.takeWhile_cons]
    rw [if_pos (by simp [hc])]
    exact congrArg (c :: ·) (ih ht)

/-- With every current name in the snapshot, no new completed file exists. -/
theorem computeCompleted_all_existing {dir : List Char}
    {exts existing : List (List Char)} {l : List DirEntry}
    (h : ∀ p ∈ l, p.name ∈ existing) :
    computeCompleted dir exts existing l = [] := by
  induction l with
  | nil => rfl
  | cons p rest ih =>
    have hp : memB p.name existing = true :=
      decide_eq_true (h p (List.mem_cons_self p rest))
    rw [computeCompleted, if_pos hp]
    exact ih (fun q hq => h q (List.mem_cons_of_mem p hq))

/-- `find?` succeeds when a member satisfies the predicate. -/
theorem find_isSome_of_mem {p : DirEntry → Bool} {l : List DirEntry} {a : DirEntry}
    (ha : a ∈ l) (hp : p a = true) : (l.find? p).isSome = true := by
  induction l with
  | nil => exact absurd ha (List.not_mem_nil a)
  | cons x rest ih =>
    rcases List.mem_cons.mp ha with rfl | ha2
    · simp [List.find?, hp]
    · cases hx : p x with
      | true => simp [List.find?, hx]
      | false => simpa [List.find?, hx] using ih ha2

/-!
Claim theorems.
-/

/-- C2: evaluation of the code at the failing input. The snapshot holds
one ordinary file `readme.txt` of size 5; the directory never changes
and no download ever starts, yet the watcher returns that pre-existing
file on the first iteration, although its name was never
partial-suffixed and it was never renamed. The inline comment at
line 301 claims a previously-partial check that lines 302-305 do not
perform. -/
theorem c2_preexisting_accepted_without_partial_history :
    wait_for_download_completion ("/dl".toList) tmpExts
        [⟨"readme.txt".toList, 5, 5⟩] [[⟨"readme.txt".toList, 5, 5⟩]] =
      some ⟨"readme.txt".toList, 5, 5⟩ ∧
    isTmpName tmpExts ("readme.txt".toList) = false := by
  constructor
  · rfl
  · rfl

/-- C3: in a polling iteration in which two or more new files pass the
stability check, the iteration returns a completed file of maximal size
among them. -/
theorem c3_largest_size_returned (dir : List Char) (exts existing : List (List Char))
    (current : List DirEntry)
    (h2 : 2 ≤ (computeCompleted dir exts existing current).length) :
    ∃ e, pollIteration dir exts existing current = some e ∧
      e ∈ computeCompleted dir exts existing current ∧
      ∀ q ∈ computeCompleted dir exts existing current, q.size2 ≤ e.size2 := by
  cases hs : sortBySizeDesc (computeCompleted dir exts existing current) with
  | nil =>
    have hnil : computeCompleted dir exts existing current = [] := by
      cases hcs : computeCompleted dir exts existing current with
      | nil => rfl
      | cons x xs =>
        rw [hcs, sortBySizeDesc] at hs
        exact absurd hs (insertBySize_ne_nil x (sortBySizeDesc xs))
    rw [hnil] at h2
    simp at h2
  | cons e t =>
    refine ⟨e, ?_, ?_, sortBySizeDesc_head_max hs⟩
    · simp only [pollIteration, hs]
    · exact mem_sortBySizeDesc.mp (hs ▸ List.mem_cons_self e t)

/-- Witness for C3 at a concrete iteration with two stable new files of
sizes 1 and 2. -/
theorem c3_largest_size_returned_witness :
    ∃ e, pollIteration ("/d".toList) tmpExts []
        [⟨"a".toList, 1, 1⟩, ⟨"b".toList, 2, 2⟩] = some e ∧
      e ∈ computeCompleted ("/d".toList) tmpExts []
          [⟨"a".toList, 1, 1⟩, ⟨"b".toList, 2, 2⟩] ∧
      ∀ q ∈ computeCompleted ("/d".toList) tmpExts []
          [⟨"a".toList, 1, 1⟩, ⟨"b".toList, 2, 2⟩], q.size2 ≤ e.size2 :=
  c3_largest_size_returned ("/d".toList) tmpExts []
    [⟨"a".toList, 1, 1⟩, ⟨"b".toList, 2, 2⟩] (by decide)

/-- C9: when the snapshot contains a file whose name has no partial
suffix and whose size is nonzero, and the directory is unchanged at the
first poll (so no new file passes the stability check, and no download
ever started), the watcher immediately returns such a pre-existing
file. -/
theorem c9_preexisting_returned (dir : List Char) (exts : List (List Char))
    (initial : List DirEntry) (rest : List (List DirEntry)) (p : DirEntry)
    (hp : p ∈ initial) (htmp : isTmpName exts p.name = false) (hsz : 0 < p.size2) :
    ∃ e, wait_for_download_completion dir exts initial (initial :: rest) = some e ∧
      e.name ∈ initial.map DirEntry.name ∧ isTmpName exts e.name = false ∧
      0 < e.size2 := by
  have hcc : computeCompleted dir exts (initial.map DirEntry.name) initial = [] :=
    computeCompleted_all_existing (fun q hq => List.mem_map_of_mem DirEntry.name hq)
  have hpred : (memB p.name (initial.map DirEntry.name) && !isTmpName exts p.name &&
      decide (0 < p.size2)) = true := by
    simp [memB, htmp, hsz, List.mem_map_of_mem DirEntry.name hp]
  have hsome := find_isSome_of_mem
    (p := fun q : DirEntry => memB q.name (initial.map DirEntry.name) &&
      !isTmpName exts q.name && decide (0 < q.size2)) hp hpred
  obtain ⟨e, he⟩ := Option.isSome_iff_exists.mp hsome
  have hprops := List.find?_some he
  simp only [Bool.and_eq_true] at hprops
  have hpoll : pollIteration dir exts (initial.map DirEntry.name) initial = some e := by
    simp only [pollIteration, hcc, sortBySizeDesc, pickPreexisting]
    exact he
  refine ⟨e, ?_, of_decide_eq_true hprops.1.1, ?_, of_decide_eq_true hprops.2⟩
  · rw [wait_for_download_completion]
    simp [hpoll]
  · have := hprops.1.2
    simpa using this

/-- Witness for C9 at a concrete snapshot holding one ordinary file. -/
theorem c9_preexisting_returned_witness :
    ∃ e, wait_for_download_completion ("/d".toList) tmpExts
        [⟨"old.bin".toList, 3, 3⟩] [[⟨"old.bin".toList, 3, 3⟩]] = some e ∧
      e.name ∈ [⟨"old.bin".toList, 3, 3⟩].map DirEntry.name ∧
      isTmpName tmpExts e.name = false ∧ 0 < e.size2 :=
  c9_preexisting_returned ("/d".toList) tmpExts [⟨"old.bin".toList, 3, 3⟩]
    [] ⟨"old.bin".toList, 3, 3⟩ (by decide) (by decide) (by decide)

/-- C1 counterexample: one anchor whose href `http://x/#/a.exe` ends with
the accepted suffix `.exe`, so a suffix-matching candidate exists; the
selection nevertheless returns the fragment-stripped key `http://x/`,
which ends with no accepted suffix — the claim's promised suffix
preference is applied to fragment-stripped keys, not to candidate
hrefs. -/
theorem c1_counterexample :
    find_and_click_download [⟨"http://x/#/a.exe".toList, [], []⟩]
        TargetOS.windows = some ("http://x/".toList) ∧
    (∃ pr ∈ candidates [⟨"http://x/#/a.exe".toList, [], []⟩] TargetOS.windows,
      suffixMatchB TargetOS.windows pr.1 = true) ∧
    suffixMatchB TargetOS.windows ("http://x/".toList) = false := by
  refine ⟨rfl, ⟨("http://x/#/a.exe".toList, []), by decide⟩, by decide⟩

/-- C1 as amended: the selection works on the deduplicated
fragment-stripped hrefs; when at least one of those keys ends with an
accepted suffix for the platform, the first such key in first-seen order
is returned, in preference to every keyword-only key; when no key
matches a suffix, the first key in first-seen order is returned. -/
theorem c1_suffix_preference (anchors : List Anchor) (os : TargetOS) :
    ((∃ k ∈ hrefsOf anchors os, suffixMatchB os k = true) →
      ∃ l1 c l2, hrefsOf anchors os = l1 ++ c :: l2 ∧
        suffixMatchB os c = true ∧ (∀ x ∈ l1, suffixMatchB os x = false) ∧
        find_and_click_download anchors os = some c) ∧
    (∀ k rest2, hrefsOf anchors os = k :: rest2 →
      (∀ x ∈ hrefsOf anchors os, suffixMatchB os x = false) →
      find_and_click_download anchors os = some k) := by
  constructor
  · rintro ⟨k, hk, hm⟩
    cases hl : hrefsOf anchors os with
    | nil => rw [hl] at hk; exact absurd hk (List.not_mem_nil k)
    | cons k0 r =>
      rw [hl] at hk
      have hpickSome : (pickBySuffix os (k0 :: r)).isSome = true :=
        pickBySuffix_isSome hk hm
      obtain ⟨c, hc⟩ := Option.isSome_iff_exists.mp hpickSome
      obtain ⟨l1, l2, hdec, hcm, hall⟩ := pickBySuffix_eq_some hc
      refine ⟨l1, c, l2, hdec, hcm, hall, ?_⟩
      simp only [find_and_click_download, hl, hc]
  · intro k rest2 hl hnone
    have hpick : pickBySuffix os (k :: rest2) = none := by
      cases hc : pickBySuffix os (k :: rest2) with
      | none => rfl
      | some c =>
        obtain ⟨l1, l2, hdec, hcm, -⟩ := pickBySuffix_eq_some hc
        have hcmem : c ∈ hrefsOf anchors os := by
          rw [hl, hdec]
          exact List.mem_append_right _ (List.mem_cons_self c l2)
        rw [hnone c hcmem] at hcm
        exact absurd hcm (by simp)
    simp only [find_and_click_download, hl, hpick]

/-- Witness for C1's amended selection: a suffix match beats an earlier
keyword-only candidate, and with no suffix match the first key wins. -/
theorem c1_suffix_preference_witness :
    (∃ l1 c l2,
      hrefsOf [⟨"http://x/windows-page".toList, [], []⟩,
        ⟨"http://x/a.exe".toList, [], []⟩] TargetOS.windows = l1 ++ c :: l2 ∧
      suffixMatchB TargetOS.windows c = true ∧
      (∀ x ∈ l1, suffixMatchB TargetOS.windows x = false) ∧
      find_and_click_download [⟨"http://x/windows-page".toList, [], []⟩,
        ⟨"http://x/a.exe".toList, [], []⟩] TargetOS.windows = some c) ∧
    find_and_click_download [⟨"http://x/windows-page".toList, [], []⟩]
        TargetOS.windows = some ("http://x/windows-page".toList) :=
  ⟨(c1_suffix_preference [⟨"http://x/windows-page".toList, [], []⟩,
      ⟨"http://x/a.exe".toList, [], []⟩] TargetOS.windows).1
      ⟨"http://x/a.exe".toList, by decide, by decide⟩,
    (c1_suffix_preference [⟨"http://x/windows-page".toList, [], []⟩]
      TargetOS.windows).2 ("http://x/windows-page".toList) [] (by decide)
      (by decide)⟩

/-- C7 counterexample: an anchor with href `http://x/page` and visible
text `WINDOWS`. Under the claim's case-insensitive keyword matching the
keyword windows appears in the text, so the anchor should be a
candidate; the code matches keywords against the text case-sensitively
(`kw in text`, line 216), so the anchor yields no candidate. -/
theorem c7_counterexample :
    candidates [⟨"http://x/page".toList, "WINDOWS".toList, []⟩]
        TargetOS.windows = [] ∧
    specCandidateB TargetOS.windows
        ⟨"http://x/page".toList, "WINDOWS".toList, []⟩ = true := by
  exact ⟨rfl, by decide⟩

/-- C7 as amended: an anchor yields a candidate entry iff its resolved
href is nonempty and either the lower-cased href ends with an accepted
suffix, or some keyword token appears case-insensitively in the href or
case-sensitively in the stripped visible text. -/
theorem c7_candidate_condition (a : Anchor) (os : TargetOS) :
    candidates [a] os ≠ [] ↔
      (resolveHref a ≠ [] ∧
        (suffixMatchB os (resolveHref a) = true ∨
          ∃ kw ∈ keywords os,
            hasSub (toLowerL kw) (toLowerL (resolveHref a)) = true ∨
              hasSub kw (pyStrip a.text) = true)) := by
  by_cases h : resolveHref a = []
  · simp [candidates, anchorEntries, h]
  · constructor
    · intro hne
      refine ⟨h, ?_⟩
      by_cases hsuf : suffixMatchB os (resolveHref a) = true
      · exact Or.inl hsuf
      · have hfs : (suffixes os).filter
            (fun suf => endsWithB suf (toLowerL (resolveHref a))) = [] := by
          rw [List.filter_eq_nil_iff]
          intro s hs he
          exact hsuf (by rw [suffixMatchB, List.any_eq_true]; exact ⟨s, hs, he⟩)
        have hkf : (keywords os).filter
            (fun kw => hasSub (toLowerL kw) (toLowerL (resolveHref a)) ||
              hasSub kw (pyStrip a.text)) ≠ [] := by
          intro hk
          exact hne (by simp [candidates, anchorEntries, if_neg h, hfs, hk])
        obtain ⟨kw, hkw⟩ := List.exists_mem_of_ne_nil _ hkf
        obtain ⟨hkmem, hkcond⟩ := List.mem_filter.mp hkw
        exact Or.inr ⟨kw, hkmem, by rwa [Bool.or_eq_true] at hkcond⟩
    · rintro ⟨-, hcond⟩ hnil
      have hentries : anchorEntries os a = [] := by simpa [candidates] using hnil
      simp only [anchorEntries, if_neg h, List.append_eq_nil, List.map_eq_nil_iff,
        List.filter_eq_nil_iff] at hentries
      obtain ⟨hf1, hf2⟩ := hentries
      rcases hcond with hsuf | ⟨kw, hkw, hor⟩
      · rw [suffixMatchB, List.any_eq_true] at hsuf
        obtain ⟨s, hs, he⟩ := hsuf
        exact hf1 s hs he
      · rcases hor with h1 | h2
        · exact hf2 kw hkw (by rw [Bool.or_eq_true]; exact Or.inl h1)
        · exact hf2 kw hkw (by rw [Bool.or_eq_true]; exact Or.inr h2)

/-- Witness for C7's amended candidacy condition at a concrete anchor
with a suffix-matching href. -/
theorem c7_candidate_condition_witness :
    candidates [⟨"http://x/a.exe".toList, [], []⟩] TargetOS.windows ≠ [] :=
  (c7_candidate_condition ⟨"http://x/a.exe".toList, [], []⟩ TargetOS.windows).mpr
    (by refine ⟨by decide, Or.inl (by decide)⟩)

/-- C8: deduplication is by fragment-stripped href — a later candidate
href equal to an earlier hash-free one up to a trailing `#fragment`
collapses into it, leaving the first-seen key order unchanged. -/
theorem c8_fragment_dedup (l1 l2 l3 : List (List Char)) (h frag : List Char)
    (hh : '#' ∉ h) :
    dedupAux [] (l1 ++ h :: (l2 ++ (h ++ '#' :: frag) :: l3)) =
      dedupAux [] (l1 ++ h :: (l2 ++ l3)) := by
  have hkey : stripFragment (h ++ '#' :: frag) = h := stripFragment_append_hash h frag hh
  have hkh : stripFragment h = h := stripFragment_of_no_hash hh
  have hmemA : h ∈ dedupAux [] (l1 ++ h :: l2) := by
    have hm : h ∈ l1 ++ h :: l2 := List.mem_append_right _ (List.mem_cons_self h l2)
    have hs := @stripFragment_mem_dedupAux h [] (l1 ++ h :: l2) hm
    rwa [hkh] at hs
  have step : ∀ A : List (List Char), h ∈ A →
      dedupAux A ((h ++ '#' :: frag) :: l3) = dedupAux A l3 := by
    intro A hA
    show (if memB (stripFragment (h ++ '#' :: frag)) A then dedupAux A l3
        else dedupAux (A ++ [stripFragment (h ++ '#' :: frag)]) l3) = dedupAux A l3
    have hc : memB h A = true := decide_eq_true hA
    rw [hkey, if_pos hc]
  calc dedupAux [] (l1 ++ h :: (l2 ++ (h ++ '#' :: frag) :: l3))
      = dedupAux [] ((l1 ++ h :: l2) ++ ((h ++ '#' :: frag) :: l3)) := by
        rw [List.append_assoc, List.cons_append]
    _ = dedupAux (dedupAux [] (l1 ++ h :: l2)) ((h ++ '#' :: frag) :: l3) :=
        dedupAux_append [] (l1 ++ h :: l2) ((h ++ '#' :: frag) :: l3)
    _ = dedupAux (dedupAux [] (l1 ++ h :: l2)) l3 :=
        step (dedupAux [] (l1 ++ h :: l2)) hmemA
    _ = dedupAux [] ((l1 ++ h :: l2) ++ l3) :=
        (dedupAux_append [] (l1 ++ h :: l2) l3).symm
    _ = dedupAux [] (l1 ++ h :: (l2 ++ l3)) := by
        rw [List.append_assoc, List.cons_append]

/-- Witness for C8 at concrete href lists. -/
theorem c8_fragment_dedup_witness :
    dedupAux [] ["http://y/b".toList, "http://x/a".toList,
        ("http://x/a".toList ++ '#' :: "frag".toList)] =
      dedupAux [] ["http://y/b".toList, "http://x/a".toList] :=
  c8_fragment_dedup ["http://y/b".toList] [] [] ("http://x/a".toList)
    ("frag".toList) (by decide)

/-- The four branches of `cfgGet` at the four required keys. -/
theorem cfgGet_eq (cfg : Config) :
    cfgGet cfg keyDOWNLOAD_PAGE_URL = cfg.downloadPageUrl ∧
    cfgGet cfg keyVPN_CONFIG_FILE = cfg.vpnConfigFile ∧
    cfgGet cfg keyVPN_USERNAME = cfg.vpnUsername ∧
    cfgGet cfg keyVPN_PASSWORD = cfg.vpnPassword :=
  ⟨rfl, rfl, rfl, rfl⟩

/-- Membership in the collected `missing` list, characterised. -/
theorem mem_missingOf_iff (cfg : Config) (k : List Char) :
    k ∈ missingOf cfg ↔
      ((k = keyDOWNLOAD_PAGE_URL ∧ cfg.downloadPageUrl = []) ∨
        (k = keyVPN_CONFIG_FILE ∧ cfg.vpnConfigFile = []) ∨
        (k = keyVPN_USERNAME ∧ cfg.vpnUsername = []) ∨
        (k = keyVPN_PASSWORD ∧ cfg.vpnPassword = [])) := by
  simp only [missingOf]
  split_ifs <;> simp_all

/-- A required key with an empty value lands in the `missing` list. -/
theorem mem_missingOf_of (cfg : Config) (k : List Char) (hk : k ∈ requiredKeys)
    (he : cfgGet cfg k = []) : k ∈ missingOf cfg := by
  have h4 := cfgGet_eq cfg
  simp only [requiredKeys, List.mem_cons, List.not_mem_nil, or_false] at hk
  rcases hk with rfl | rfl | rfl | rfl
  · rw [h4.1] at he
    exact (mem_missingOf_iff cfg _).mpr (Or.inl ⟨rfl, he⟩)
  · rw [h4.2.1] at he
    exact (mem_missingOf_iff cfg _).mpr (Or.inr (Or.inl ⟨rfl, he⟩))
  · rw [h4.2.2.1] at he
    exact (mem_missingOf_iff cfg _).mpr (Or.inr (Or.inr (Or.inl ⟨rfl, he⟩)))
  · rw [h4.2.2.2] at he
    exact (mem_missingOf_iff cfg _).mpr (Or.inr (Or.inr (Or.inr ⟨rfl, he⟩)))

/-- C4: when any required key is empty, `sanity_check_config` fails with
one error whose name list contains every empty required key, not only
the first; likewise the check of src/connect_vpn.py reports a message
naming all of its required variables. -/
theorem c4_every_missing_key_listed :
    (∀ (cfg : Config) (k : List Char), k ∈ requiredKeys → cfgGet cfg k = [] →
      ∃ l, sanity_check_config cfg = some l ∧
        ∀ k2 ∈ requiredKeys, cfgGet cfg k2 = [] → k2 ∈ l) ∧
    (∀ (env : Env) (k : List Char), k ∈ cvRequiredKeys → (env k).getD [] = [] →
      ∃ l, connectVpnCheck env = some l ∧
        ∀ k2 ∈ cvRequiredKeys, (env k2).getD [] = [] → k2 ∈ l) := by
  constructor
  · intro cfg k hk hempty
    have hmem : k ∈ missingOf cfg := mem_missingOf_of cfg k hk hempty
    have hne : missingOf cfg ≠ [] :=
      fun h0 => absurd (h0 ▸ hmem) (List.not_mem_nil k)
    refine ⟨missingOf cfg, ?_, ?_⟩
    · rw [sanity_check_config, if_neg hne]
    · intro k2 hk2 he2
      exact mem_missingOf_of cfg k2 hk2 he2
  · intro env k hk hempty
    have hmiss : cvMissingB env = true := by
      rw [cvMissingB, List.any_eq_true]
      exact ⟨k, hk, decide_eq_true hempty⟩
    refine ⟨cvRequiredKeys, ?_, ?_⟩
    · rw [connectVpnCheck, if_pos hmiss]
    · intro k2 hk2 _
      exact hk2

/-- Witness for C4: a configuration missing both the page URL and the
username reports a list containing both names, and an empty environment
makes src/connect_vpn.py's check fire. -/
theorem c4_every_missing_key_listed_witness :
    (∃ l, sanity_check_config ⟨[], "c".toList, [], "p".toList, none, 120⟩ = some l ∧
      ∀ k2 ∈ requiredKeys,
        cfgGet ⟨[], "c".toList, [], "p".toList, none, 120⟩ k2 = [] → k2 ∈ l) ∧
    (∃ l, connectVpnCheck (fun _ => none) = some l ∧
      ∀ k2 ∈ cvRequiredKeys, ((fun _ => none : Env) k2).getD [] = [] → k2 ∈ l) :=
  ⟨c4_every_missing_key_listed.1 ⟨[], "c".toList, [], "p".toList, none, 120⟩
      keyDOWNLOAD_PAGE_URL (by decide) rfl,
    c4_every_missing_key_listed.2 (fun _ => none) keyVPN_CONFIG_FILE
      (by decide) rfl⟩

/-- C10: a set, nonempty, non-integer `DOWNLOAD_TIMEOUT` makes the
configuration stage end in the uncaught `ValueError` — not in the
categorized missing-variable fatal, which never runs; an unset or empty
`DOWNLOAD_TIMEOUT` loads with the default 120. -/
theorem c10_timeout_valueerror (env : Env) (s : List Char) :
    (env keyDOWNLOAD_TIMEOUT = some s → s ≠ [] → pyInt s = none →
      configStage env = Except.error Abort.valueError) ∧
    (env keyDOWNLOAD_TIMEOUT = none →
      ∃ cfg, load_configuration env = Except.ok cfg ∧ cfg.downloadTimeout = 120) ∧
    (env keyDOWNLOAD_TIMEOUT = some [] →
      ∃ cfg, load_configuration env = Except.ok cfg ∧ cfg.downloadTimeout = 120) := by
  refine ⟨?_, ?_, ?_⟩
  · intro hs hne hint
    have hload : load_configuration env = Except.error () := by
      simp only [load_configuration, pyTimeout, hs]
      rw [if_neg hne, hint]
    rw [configStage, hload]
  · intro he
    simp only [load_configuration, pyTimeout, he]
    exact ⟨_, rfl, rfl⟩
  · intro he
    simp only [load_configuration, pyTimeout, he, if_pos]
    exact ⟨_, rfl, rfl⟩

/-- Witness for C10: `DOWNLOAD_TIMEOUT=abc` ends in the `ValueError`,
an absent `DOWNLOAD_TIMEOUT` loads with timeout 120. -/
theorem c10_timeout_valueerror_witness :
    configStage (fun k => if k = keyDOWNLOAD_TIMEOUT then
        some ("abc".toList) else none) = Except.error Abort.valueError ∧
    ∃ cfg, load_configuration (fun _ => none) = Except.ok cfg ∧
      cfg.downloadTimeout = 120 :=
  ⟨(c10_timeout_valueerror (fun k => if k = keyDOWNLOAD_TIMEOUT then
      some ("abc".toList) else none) ("abc".toList)).1 rfl (by decide) rfl,
    (c10_timeout_valueerror (fun _ => none) []).2.1 rfl⟩

/-- C5 counterexample: with every variable unset, src/connect_vpn.py hits
its missing-variable error (a fatal condition under the claim) yet the
process exits with code 0 — `connect_vpn` prints the error and returns,
and the interpreter exits normally — not with the claimed code 1. -/
theorem c5_counterexample :
    cvMissingB (fun _ => none) = true ∧
    connect_vpn_exit (fun _ => none) 1 = 0 := ⟨rfl, rfl⟩

/-- C5 as amended: the 0/1/2 contract holds for the wrapped entry points
(src/vpn_automator.py and src/vpn_automator_wireguard.py): exit 1 on the
missing-variable fatal and on the uncaught configuration `ValueError`,
exit 0 on normal completion, exit 2 on `KeyboardInterrupt`; the
src/connect_vpn.py entry point instead exits 0 on its missing-variable
error. -/
theorem c5_exit_codes :
    (∀ (env : Env) (rest : RunOutcome) (l : List (List Char)),
      configStage env = Except.error (Abort.fatalMissing l) →
      vpn_automator_exit env rest = 1) ∧
    (∀ (env : Env) (cfg : Config), configStage env = Except.ok cfg →
      vpn_automator_exit env RunOutcome.normal = 0) ∧
    (∀ (env : Env) (cfg : Config), configStage env = Except.ok cfg →
      vpn_automator_exit env RunOutcome.interrupt = 2) ∧
    (∀ env : Env, configStage env = Except.error Abort.valueError →
      ∀ rest, vpn_automator_exit env rest = 1) ∧
    (∀ (env : Env) (restCode : Nat), cvMissingB env = true →
      connect_vpn_exit env restCode = 0) ∧
    (∀ (env : Env) (rest : RunOutcome), wgMissingB env = true →
      wireguard_exit env rest = 1) := by
  refine ⟨?_, ?_, ?_, ?_, ?_, ?_⟩
  · intro env rest l h
    simp [vpn_automator_exit, mainOutcome, h, fatalOutcome, entryWrap]
  · intro env cfg h
    simp [vpn_automator_exit, mainOutcome, h, entryWrap]
  · intro env cfg h
    simp [vpn_automator_exit, mainOutcome, h, entryWrap]
  · intro env h rest
    simp [vpn_automator_exit, mainOutcome, h, entryWrap]
  · intro env restCode h
    rw [connect_vpn_exit, if_pos h]
  · intro env rest h
    simp [wireguard_exit, h, fatalOutcome, entryWrap]

/-- Witness for C5's amended exit-code contract at concrete
environments. -/
theorem c5_exit_codes_witness :
    vpn_automator_exit (fun _ => none) RunOutcome.normal = 1 ∧
    vpn_automator_exit (fun k => if k = keyDOWNLOAD_TIMEOUT then none
      else some ("v".toList)) RunOutcome.normal = 0 ∧
    vpn_automator_exit (fun k => if k = keyDOWNLOAD_TIMEOUT then none
      else some ("v".toList)) RunOutcome.interrupt = 2 ∧
    vpn_automator_exit (fun k => if k = keyDOWNLOAD_TIMEOUT then
      some ("abc".toList) else none) RunOutcome.normal = 1 ∧
    connect_vpn_exit (fun _ => none) 3 = 0 ∧
    wireguard_exit (fun _ => none) RunOutcome.normal = 1 :=
  ⟨c5_exit_codes.1 (fun _ => none) RunOutcome.normal requiredKeys rfl,
    c5_exit_codes.2.1 (fun k => if k = keyDOWNLOAD_TIMEOUT then none
      else some ("v".toList))
      ⟨"v".toList, "v".toList, "v".toList, "v".toList, some ("v".toList), 120⟩ rfl,
    c5_exit_codes.2.2.1 (fun k => if k = keyDOWNLOAD_TIMEOUT then none
      else some ("v".toList))
      ⟨"v".toList, "v".toList, "v".toList, "v".toList, some ("v".toList), 120⟩ rfl,
    c5_exit_codes.2.2.2.1 (fun k => if k = keyDOWNLOAD_TIMEOUT then
      some ("abc".toList) else none) rfl RunOutcome.normal,
    c5_exit_codes.2.2.2.2.1 (fun _ => none) 3 rfl,
    c5_exit_codes.2.2.2.2.2 (fun _ => none) RunOutcome.normal rfl⟩

/-- C6 counterexample: in src/vpn_automator.py's `connect_vpn` the auth
file still exists when the routine returns — no code path deletes it, so
the claimed deletion after the VPN process exits does not happen. -/
theorem c6_counterexample :
    existsF (vpn_automator_connect_fs true []).atReturn authPath = true := rfl

/-- C6 as amended: in src/vpn_automator.py the auth file is created
before the launch with owner-only permissions on POSIX but still exists,
owner-only, when the routine returns; in src/connect_vpn.py the creds
file is created before the launch with the unrestricted default mode and
no longer exists when the routine returns. -/
theorem c6_auth_file_lifecycle :
    (∀ fs : FSModel, existsF fs authPath = false →
      existsF (vpn_automator_connect_fs true fs).atLaunch authPath = true ∧
      modeOf (vpn_automator_connect_fs true fs).atLaunch authPath =
        some ownerOnlyMode ∧
      existsF (vpn_automator_connect_fs true fs).atReturn authPath = true ∧
      modeOf (vpn_automator_connect_fs true fs).atReturn authPath =
        some ownerOnlyMode) ∧
    (∀ fs : FSModel, existsF fs credsPath = false →
      existsF (connect_vpn_py_fs fs).atLaunch credsPath = true ∧
      modeOf (connect_vpn_py_fs fs).atLaunch credsPath = some defaultMode ∧
      existsF (connect_vpn_py_fs fs).atReturn credsPath = false) := by
  constructor
  · intro fs h
    have hw : fsWrite fs authPath = (authPath, defaultMode) :: fs := by
      rw [fsWrite, if_neg (by simp [h])]
    refine ⟨?_, ?_, ?_, ?_⟩ <;>
      simp [vpn_automator_connect_fs, create_auth_file, hw, fsChmod,
        existsF, modeOf, List.find?]
  · intro fs h
    have hw : fsWrite fs credsPath = (credsPath, defaultMode) :: fs := by
      rw [fsWrite, if_neg (by simp [h])]
    refine ⟨?_, ?_, ?_⟩
    · simp [connect_vpn_py_fs, hw, existsF]
    · simp [connect_vpn_py_fs, hw, modeOf, List.find?]
    · have hex : existsF (fsWrite fs credsPath) credsPath = true := by
        simp [hw, existsF]
      simp only [connect_vpn_py_fs, hex, if_pos]
      simp [fsRemove, existsF, List.any_eq_true, List.mem_filter]

/-- Witness for C6's amended lifecycle on the empty filesystem. -/
theorem c6_auth_file_lifecycle_witness :
    (existsF (vpn_automator_connect_fs true []).atLaunch authPath = true ∧
      modeOf (vpn_automator_connect_fs true []).atLaunch authPath =
        some ownerOnlyMode ∧
      existsF (vpn_automator_connect_fs true []).atReturn authPath = true ∧
      modeOf (vpn_automator_connect_fs true []).atReturn authPath =
        some ownerOnlyMode) ∧
    (existsF (connect_vpn_py_fs []).atLaunch credsPath = true ∧
      modeOf (connect_vpn_py_fs []).atLaunch credsPath = some defaultMode ∧
      existsF (connect_vpn_py_fs []).atReturn credsPath = false) :=
  ⟨c6_auth_file_lifecycle.1 [] rfl, c6_auth_file_lifecycle.2 [] rfl⟩
